import Mathlib

/-!
Verification development for the fcitx5 logging core
(`src/lib/fcitx-utils/log.cpp`).

The development shallowly embeds the logging core: `LogLevel` and the
category/registry state machine, the rule-string parser `Log::setLogRule`,
the admission predicate `LogCategory::checkLogLevel`, the fatal wrappers,
and the `LogMessageBuilder` line framing.  Stateful C++ code becomes
explicit state passing over a `GlobalState`; `std::abort` becomes `none`
in an `Option` result; the catch-all around timestamp formatting becomes
an `Option String` argument.
-/

namespace Fcitx

/-- Modelled from the spec: the `LogLevel` enumeration lives in
`fcitx-utils/log.h`, which is not part of the sources here.  The spec
describes it as an ordered severity enumeration, conventionally
`NoLog < Fatal < Error < Warn < Info < Debug`, with a distinguished
"no logging" value and a distinguished maximum (`LastLogLevel`) used for
bounds checking; integer levels are valid on `[0, LastLogLevel]`.
The underlying integers follow the listed order starting at `0`. -/
inductive LogLevel where
  | NoLog
  | Fatal
  | Error
  | Warn
  | Info
  | Debug
deriving DecidableEq, Repr

/-- Modelled from the spec: the underlying integer of each `LogLevel`
value, following the conventional order `NoLog < Fatal < Error < Warn <
Info < Debug` starting at `0`. -/
def LogLevel.toInt : LogLevel → Int
  | .NoLog => 0
  | .Fatal => 1
  | .Error => 2
  | .Warn => 3
  | .Info => 4
  | .Debug => 5

/-- Modelled from the spec: `LastLogLevel` is the distinguished maximum
enumerator used for bounds checking; it coincides with `Debug`. -/
def LogLevel.LastLogLevel : LogLevel := .Debug

/-- Modelled from the spec: the inverse of `LogLevel.toInt` on the valid
range `[0, LastLogLevel]`; mirrors the C++ `static_cast<LogLevel>(l)`
performed after `validateLogLevel` has succeeded. -/
def LogLevel.ofInt : Int → LogLevel
  | 0 => .NoLog
  | 1 => .Fatal
  | 2 => .Error
  | 3 => .Warn
  | 4 => .Info
  | _ => .Debug

/-- `validateLogLevel` (log.cpp:50-53): an integer level is valid iff it
lies in `[0, LastLogLevel]`. -/
def validateLogLevel (l : Int) : Bool :=
  decide (0 ≤ l) && decide (l ≤ LogLevel.LastLogLevel.toInt)

/-- One registered log category (`LogCategoryPrivate`, log.cpp:101-109):
a name, the current level `level` and the construction-time
`defaultLevel`.  The `id` field models C++ object identity: the registry
keys its category set by pointer. -/
structure LogCat where
  id : Nat
  name : String
  level : LogLevel
  defaultLevel : LogLevel
deriving DecidableEq, Repr

/-- `LogCategory::checkLogLevel` (log.cpp:120-125): a requested level is
admitted iff it is not `NoLog` and its underlying integer is at most the
category's current level's underlying integer. -/
def LogCat.checkLogLevel (c : LogCat) (l : LogLevel) : Bool :=
  decide (l ≠ LogLevel.NoLog) && decide (l.toInt ≤ c.level.toInt)

/-- `LogCategory::resetLogLevel` (log.cpp:127-130). -/
def LogCat.resetLogLevel (c : LogCat) : LogCat :=
  { c with level := c.defaultLevel }

/-- `LogCategory::setLogLevel(LogLevel)` (log.cpp:138-141): sets the
current level unconditionally. -/
def LogCat.setLogLevel (c : LogCat) (l : LogLevel) : LogCat :=
  { c with level := l }

/-- `LogCategory::setLogLevel(underlying_type)` (log.cpp:132-136): the
integer overload validates first and is a no-op on an invalid integer. -/
def LogCat.setLogLevelInt (c : LogCat) (l : Int) : LogCat :=
  if validateLogLevel l then c.setLogLevel (LogLevel.ofInt l) else c

/-- A stored rule (`LogRule`, log.cpp:34): a pattern (either `"*"` or an
exact category name) paired with a level. -/
abbrev LogRule := String × LogLevel

/-- The level `LogRegistry::applyRule` (log.cpp:85-92) leaves a category
at: start from the default level, then fold over the stored rules in
order, replacing the level whenever the rule's pattern is `"*"` or equals
the category's name. -/
def effectiveLevel (rules : List LogRule) (name : String) (dflt : LogLevel) : LogLevel :=
  rules.foldl (fun lv r => if r.1 = "*" ∨ r.1 = name then r.2 else lv) dflt

/-- `LogRegistry::applyRule` (log.cpp:85-92): `resetLogLevel`, then apply
every matching rule in list order via `setLogLevel`. -/
def applyRule (rules : List LogRule) (c : LogCat) : LogCat :=
  rules.foldl (fun cat r => if r.1 = "*" ∨ r.1 = cat.name then cat.setLogLevel r.2 else cat)
    c.resetLogLevel

/-- The registry state (`LogRegistry`, log.cpp:55-98): the set of live
categories (identity-keyed; modelled as a list with distinct treatment by
`id`) and the current ordered rule list. -/
structure LogRegistry where
  categories : List LogCat
  rules : List LogRule
deriving DecidableEq, Repr

/-- `LogRegistry::registerCategory` (log.cpp:62-68): if no category with
this identity is present, insert it and immediately apply the current
rules to it.  The category arrives from the `LogCategory` constructor
(log.cpp:111-114) with `level = defaultLevel = dflt`. -/
def registerCategory (i : Nat) (name : String) (dflt : LogLevel) (s : LogRegistry) :
    LogRegistry :=
  if s.categories.any (fun c => c.id = i) then s
  else { s with categories :=
          applyRule s.rules ⟨i, name, dflt, dflt⟩ :: s.categories }

/-- `LogRegistry::unregisterCategory` (log.cpp:70-73): remove by
identity; a no-op when absent. -/
def unregisterCategory (i : Nat) (s : LogRegistry) : LogRegistry :=
  { s with categories := s.categories.filter (fun c => ¬ c.id = i) }

/-- `LogRegistry::setLogRules` (log.cpp:75-83): replace the stored rule
list wholesale, then re-apply the rules to every registered category. -/
def setLogRules (rules : List LogRule) (s : LogRegistry) : LogRegistry :=
  { categories := s.categories.map (applyRule rules), rules := rules }

theorem applyRule_foldl_aux (rules : List LogRule) (c : LogCat) :
    rules.foldl
        (fun cat r => if r.1 = "*" ∨ r.1 = cat.name then cat.setLogLevel r.2 else cat) c =
      { c with level :=
          rules.foldl (fun lv r => if r.1 = "*" ∨ r.1 = c.name then r.2 else lv) c.level } := by
  induction rules generalizing c with
  | nil => rfl
  | cons r rs ih =>
    simp only [List.foldl_cons]
    by_cases h : r.1 = "*" ∨ r.1 = c.name
    · rw [if_pos h, if_pos h]
      exact ih (c.setLogLevel r.2)
    · rw [if_neg h, if_neg h]
      exact ih c

theorem effectiveLevel_applyRule (rules : List LogRule) (c : LogCat) :
    applyRule rules c =
      { c with level := effectiveLevel rules c.name c.defaultLevel } := by
  unfold applyRule effectiveLevel
  exact applyRule_foldl_aux rules c.resetLogLevel

theorem applyRule_name (rules : List LogRule) (c : LogCat) :
    (applyRule rules c).name = c.name := by
  rw [effectiveLevel_applyRule]

theorem applyRule_defaultLevel (rules : List LogRule) (c : LogCat) :
    (applyRule rules c).defaultLevel = c.defaultLevel := by
  rw [effectiveLevel_applyRule]

theorem applyRule_level (rules : List LogRule) (c : LogCat) :
    (applyRule rules c).level = effectiveLevel rules c.name c.defaultLevel := by
  rw [effectiveLevel_applyRule]

/-- Modelled from the spec: `stringutils::split` is declared in
`fcitx-utils/stringutils.h`, which is not part of the sources here.  The
spec describes the rule string as "comma-separated rule tokens"; this
splits at every separator character and drops empty fields, so that each
token is a maximal non-empty separator-free run. -/
def splitFields (sep : Char) : List Char → List (List Char)
  | [] => [[]]
  | c :: cs =>
    let rest := splitFields sep cs
    if c = sep then [] :: rest
    else
      match rest with
      | [] => [[c]]
      | t :: ts => (c :: t) :: ts

/-- Modelled from the spec: the comma-separated tokens of a rule string
(see `splitFields`). -/
def splitTokens (sep : Char) (s : String) : List String :=
  ((splitFields sep s.toList).map fun cs => String.mk cs).filter fun t => t ≠ ""

/-- Modelled from the spec: splitting a token "on the first `=`": the
text before the first `=` and the entire remainder after it, or `none`
when the token holds no `=` at all. -/
def splitFirst (sep : Char) : List Char → Option (List Char × List Char)
  | [] => none
  | c :: cs =>
    if c = sep then some ([], cs)
    else
      match splitFirst sep cs with
      | none => none
      | some (pre, post) => some (c :: pre, post)

/-- `std::from_chars` on `int` as used at log.cpp:186-188: parse an
optional leading minus sign and then a longest run of decimal digits;
succeed iff at least one digit was consumed, ignoring any trailing
characters.  (Out-of-range integers differ from C++ only in that C++
reports an error while this returns the value; both paths make
`setLogRule` discard the token, since such a value always fails
`validateLogLevel`.) -/
def fromChars (s : List Char) : Option Int :=
  let (neg, rest) :=
    match s with
    | '-' :: cs => (true, cs)
    | cs => (false, cs)
  let ds := rest.takeWhile Char.isDigit
  if ds.isEmpty then none
  else
    let v : Nat := ds.foldl (fun a c => a * 10 + (c.toNat - '0'.toNat)) 0
    some (if neg then -(v : Int) else (v : Int))

/-- One iteration of the token loop of `Log::setLogRule`
(log.cpp:180-192) for a token other than `"notimedate"`: split on the
first `=` (spec-modelled, see `splitFirst`), parse the remainder as an
integer, validate it, and produce the rule, or `none` when the token is
silently discarded. -/
def tokenToRule (tok : String) : Option LogRule :=
  match splitFirst '=' tok.toList with
  | none => none
  | some (name, lvlText) =>
    match fromChars lvlText with
    | none => none
    | some lvl =>
      if validateLogLevel lvl then some (String.mk name, LogLevel.ofInt lvl)
      else none

/-- The loop body of `Log::setLogRule` (log.cpp:174-193): the exact
token `"notimedate"` records that the show-timestamp flag must be
cleared; every other token either appends a rule via `tokenToRule` or is
silently discarded.  The accumulator carries the parsed rules in input
order and whether `"notimedate"` was seen. -/
def setLogRuleStep (acc : List LogRule × Bool) (tok : String) : List LogRule × Bool :=
  if tok = "notimedate" then (acc.1, true)
  else
    match tokenToRule tok with
    | some r => (acc.1 ++ [r], acc.2)
    | none => acc

/-- The whole parsing pass of `Log::setLogRule`: fold `setLogRuleStep`
over the comma-separated tokens, starting from no rules and the
timestamp flag untouched. -/
def parseLogRule (s : String) : List LogRule × Bool :=
  (splitTokens ',' s).foldl setLogRuleStep ([], false)

/-- The process-wide mutable state the claims range over: the registry
singleton (log.cpp:55-98) plus `LogConfig::showTimeDate` (log.cpp:48,
initially `true`). -/
structure GlobalState where
  registry : LogRegistry
  showTimeDate : Bool
deriving DecidableEq, Repr

/-- The mutating operations of the logging core that act on the modelled
state: category construction/destruction (which register/unregister),
`LogRegistry::setLogRules`, `Log::setLogRule`, and the direct
per-category level mutators. -/
inductive Op where
  | register (i : Nat) (name : String) (dflt : LogLevel)
  | unregister (i : Nat)
  | setRules (rules : List LogRule)
  | setRule (ruleString : String)
  | setLevel (i : Nat) (l : LogLevel)
  | setLevelInt (i : Nat) (n : Int)
  | resetLevel (i : Nat)
deriving DecidableEq, Repr

/-- The three operations routed through the registry that claim C1
quantifies over. -/
def Op.isRegistryOp : Op → Bool
  | .register _ _ _ => true
  | .unregister _ => true
  | .setRules _ => true
  | _ => false

/-- Apply a mutator to the category with identity `i`, if present. -/
def mutateCat (i : Nat) (f : LogCat → LogCat) (s : LogRegistry) : LogRegistry :=
  { s with categories := s.categories.map fun c => if c.id = i then f c else c }

/-- One step of the logging core's state machine. -/
def stepOp (op : Op) (s : GlobalState) : GlobalState :=
  match op with
  | .register i name dflt => { s with registry := registerCategory i name dflt s.registry }
  | .unregister i => { s with registry := unregisterCategory i s.registry }
  | .setRules rules => { s with registry := setLogRules rules s.registry }
  | .setRule str =>
    let (rules, sawNoTimeDate) := parseLogRule str
    { registry := setLogRules rules s.registry,
      showTimeDate := if sawNoTimeDate then false else s.showTimeDate }
  | .setLevel i l => { s with registry := mutateCat i (fun c => c.setLogLevel l) s.registry }
  | .setLevelInt i n =>
    { s with registry := mutateCat i (fun c => c.setLogLevelInt n) s.registry }
  | .resetLevel i => { s with registry := mutateCat i (fun c => c.resetLogLevel) s.registry }

/-- The state at process start: no categories, no rules, timestamps on
(log.cpp:48). -/
def initialState : GlobalState :=
  { registry := { categories := [], rules := [] }, showTimeDate := true }

/-- Run a finite sequence of operations. -/
def run (ops : List Op) (s : GlobalState) : GlobalState :=
  ops.foldl (fun st op => stepOp op st) s

/-- `LogCategory::fatalWrapper` (log.cpp:153-160): compute the admission
result; abort (`none`) when the level is `Fatal` yet not admitted,
otherwise return the admission result. -/
def LogCat.fatalWrapper (c : LogCat) (level : LogLevel) : Option Bool :=
  let needLog := c.checkLogLevel level
  if level = LogLevel.Fatal ∧ needLog = false then none else some needLog

/-- `LogCategory::fatalWrapper2` (log.cpp:162-167): a static entry point
with no category at hand; abort (`none`) whenever the level is `Fatal`,
otherwise return `false`. -/
def fatalWrapper2 (level : LogLevel) : Option Bool :=
  if level = LogLevel.Fatal then none else some false

/-- The one-character severity tag the `LogMessageBuilder` constructor
writes (log.cpp:213-231): `F`, `D`, `I`, `W`, `E` for the five tagged
levels, nothing for any other level (the `default` branch). -/
def severityTag : LogLevel → String
  | .Fatal => "F"
  | .Debug => "D"
  | .Info => "I"
  | .Warn => "W"
  | .Error => "E"
  | .NoLog => ""

/-- What the `LogMessageBuilder` constructor (log.cpp:210-251) writes to
the stream.  Timestamp formatting can throw; the surrounding catch-all
swallows the failure, so it is modelled by an `Option String`: `some t`
is a successfully formatted timestamp, `none` a failure, in which case
nothing of the timestamp (and no space) is written and no error reaches
the caller. -/
def builderPrefix (l : LogLevel) (showTD : Bool) (tsResult : Option String)
    (filename : String) (lineNumber : Int) : String :=
  severityTag l ++
    (if showTD then
      match tsResult with
      | some t => t ++ " "
      | none => ""
    else "") ++
    filename ++ ":" ++ toString lineNumber ++ "] "

/-- What the `LogMessageBuilder` destructor (log.cpp:253-256) does:
the characters written and whether the stream is flushed afterwards. -/
structure EmitTail where
  written : String
  flushed : Bool
deriving DecidableEq, Repr

/-- The destructor writes one newline and then flushes. -/
def builderTail : EmitTail := { written := "\n", flushed := true }

theorem effectiveLevel_nil (name : String) (dflt : LogLevel) :
    effectiveLevel [] name dflt = dflt := rfl

theorem effectiveLevel_wildcard (L : LogLevel) (name : String) (dflt : LogLevel) :
    effectiveLevel [("*", L)] name dflt = L := by
  show (if "*" = "*" ∨ "*" = name then L else dflt) = L
  rw [if_pos (Or.inl rfl)]

theorem effectiveLevel_pair (A B : LogLevel) (name : String) (dflt : LogLevel) :
    effectiveLevel [("*", A), ("catX", B)] name dflt =
      if name = "catX" then B else A := by
  show (if "catX" = "*" ∨ "catX" = name then B
        else if "*" = "*" ∨ "*" = name then A else dflt) =
      if name = "catX" then B else A
  by_cases h : name = "catX"
  · rw [if_pos (Or.inr h.symm), if_pos h]
  · rw [if_neg ?_, if_pos (Or.inl rfl), if_neg h]
    rintro (h' | h')
    exacts [absurd h' (by decide), h h'.symm]

/-- The level invariant of claim C1: every registered category sits at
the level obtained by folding the stored rules over its default level. -/
def RegInv (s : GlobalState) : Prop :=
  ∀ c ∈ s.registry.categories,
    c.level = effectiveLevel s.registry.rules c.name c.defaultLevel

theorem regInv_initial : RegInv initialState := by
  intro c hc
  exact absurd hc (List.not_mem_nil c)

theorem regInv_stepOp {op : Op} (hop : op.isRegistryOp = true) {s : GlobalState}
    (h : RegInv s) : RegInv (stepOp op s) := by
  cases op with
  | register i nm d =>
    intro c hc
    simp only [stepOp, registerCategory] at hc ⊢
    by_cases hmem : s.registry.categories.any fun c => c.id = i
    · rw [if_pos hmem] at hc ⊢
      exact h c hc
    · rw [if_neg hmem] at hc ⊢
      rcases List.mem_cons.mp hc with hc | hc
      · subst hc
        rw [applyRule_level, applyRule_name, applyRule_defaultLevel]
      · exact h c hc
  | unregister i =>
    intro c hc
    simp only [stepOp, unregisterCategory] at hc ⊢
    exact h c (List.mem_of_mem_filter hc)
  | setRules rules =>
    intro c hc
    simp only [stepOp, setLogRules] at hc ⊢
    rcases List.mem_map.mp hc with ⟨c0, _, rfl⟩
    rw [applyRule_level, applyRule_name, applyRule_defaultLevel]
  | setRule str => simp [Op.isRegistryOp] at hop
  | setLevel i l => simp [Op.isRegistryOp] at hop
  | setLevelInt i n => simp [Op.isRegistryOp] at hop
  | resetLevel i => simp [Op.isRegistryOp] at hop

theorem regInv_run {ops : List Op} (hops : ∀ op ∈ ops, op.isRegistryOp = true)
    {s : GlobalState} (h : RegInv s) : RegInv (run ops s) := by
  induction ops generalizing s with
  | nil => exact h
  | cons op rest ih =>
    exact ih (fun o ho => hops o (List.mem_cons_of_mem op ho))
      (regInv_stepOp (hops op (List.mem_cons_self op rest)) h)

/-- C2: rule order determines the outcome, last match wins.  After
`setLogRules [("*", A), ("catX", B)]` the registered category named
`"catX"` has current level `B` and every other registered category has
current level `A`, regardless of how `A` and `B` compare, because
`applyRule` resets to the default level and then applies every matching
rule strictly in list order with no early exit. -/
theorem c2_rule_order_last_match_wins (A B : LogLevel) (s : LogRegistry) (c : LogCat)
    (hc : c ∈ (setLogRules [("*", A), ("catX", B)] s).categories) :
    c.level = if c.name = "catX" then B else A := by
  simp only [setLogRules] at hc
  rcases List.mem_map.mp hc with ⟨c0, _, rfl⟩
  rw [applyRule_level, applyRule_name, effectiveLevel_pair]

/-- Witness for C2 at a concrete registry with categories named
`"catX"` and `"other"`. -/
theorem c2_rule_order_last_match_wins_witness :
    (⟨0, "catX", LogLevel.Debug, LogLevel.Info⟩ : LogCat).level =
      if (⟨0, "catX", LogLevel.Debug, LogLevel.Info⟩ : LogCat).name = "catX" then
        LogLevel.Debug
      else LogLevel.Error :=
  c2_rule_order_last_match_wins LogLevel.Error LogLevel.Debug
    ⟨[⟨0, "catX", LogLevel.NoLog, LogLevel.Info⟩], []⟩ _ (by decide)

/-- C3: admission control.  `checkLogLevel l` is true iff `l` is not
`NoLog` and `l`'s underlying integer is at most the current level's
underlying integer; in particular `checkLogLevel NoLog` is false for
every category. -/
theorem c3_checkLogLevel_admission :
    (∀ (c : LogCat) (l : LogLevel),
        c.checkLogLevel l = true ↔ l ≠ LogLevel.NoLog ∧ l.toInt ≤ c.level.toInt) ∧
      ∀ c : LogCat, c.checkLogLevel LogLevel.NoLog = false := by
  constructor
  · intro c l
    simp [LogCat.checkLogLevel]
  · intro c
    simp [LogCat.checkLogLevel]

/-- C4: integer level validation.  `validateLogLevel n` holds iff
`0 ≤ n ≤ LastLogLevel`; outside that range the integer overload of
`setLogLevel` changes nothing, and inside it the category's current
level becomes the level whose ordinal is `n`. -/
theorem c4_validate_and_int_setLogLevel :
    (∀ n : Int, validateLogLevel n = true ↔ 0 ≤ n ∧ n ≤ LogLevel.LastLogLevel.toInt) ∧
      (∀ (n : Int) (c : LogCat),
        ¬(0 ≤ n ∧ n ≤ LogLevel.LastLogLevel.toInt) → c.setLogLevelInt n = c) ∧
      ∀ (n : Int) (c : LogCat), 0 ≤ n → n ≤ LogLevel.LastLogLevel.toInt →
        (c.setLogLevelInt n).level = LogLevel.ofInt n ∧ (LogLevel.ofInt n).toInt = n ∧
          (c.setLogLevelInt n).name = c.name ∧
          (c.setLogLevelInt n).defaultLevel = c.defaultLevel := by
  have hval : ∀ n : Int,
      validateLogLevel n = true ↔ 0 ≤ n ∧ n ≤ LogLevel.LastLogLevel.toInt := by
    intro n
    simp [validateLogLevel]
  refine ⟨hval, ?_, ?_⟩
  · intro n c hn
    rw [LogCat.setLogLevelInt, if_neg]
    intro h
    exact hn ((hval n).mp h)
  · intro n c h0 h5
    rw [LogCat.setLogLevelInt, if_pos ((hval n).mpr ⟨h0, h5⟩)]
    refine ⟨rfl, ?_, rfl, rfl⟩
    have h5' : n ≤ 5 := h5
    interval_cases n <;> decide

theorem registerCategory_rules (i : Nat) (nm : String) (d : LogLevel) (s : LogRegistry) :
    (registerCategory i nm d s).rules = s.rules := by
  unfold registerCategory
  split <;> rfl

/-- C1: registry level invariant.  After any finite sequence of
`registerCategory`, `unregisterCategory` and `setLogRules` operations,
every registered category's current level equals its default level with
every stored matching rule applied in list order; in particular a
subsequent `setLogRules [("*", L)]` puts every category at `L`, a
subsequent `setLogRules []` puts every category back at its own default
level, and a category registered while rules `[("*", Warn)]` (ordinal 3)
are active immediately has current level `Warn`. -/
theorem c1_registry_level_invariant (ops : List Op)
    (hops : ∀ op ∈ ops, op.isRegistryOp = true) :
    (∀ c ∈ (run ops initialState).registry.categories,
        c.level =
          effectiveLevel (run ops initialState).registry.rules c.name c.defaultLevel) ∧
      (∀ (L : LogLevel) (c : LogCat),
        c ∈ (stepOp (.setRules [("*", L)]) (run ops initialState)).registry.categories →
          c.level = L) ∧
      (∀ c ∈ (stepOp (.setRules []) (run ops initialState)).registry.categories,
          c.level = c.defaultLevel) ∧
      ∀ (i : Nat) (nm : String) (d : LogLevel),
        (run ops initialState).registry.rules = [("*", LogLevel.Warn)] →
        ∀ c ∈ (stepOp (.register i nm d) (run ops initialState)).registry.categories,
          c.level = LogLevel.Warn := by
  have hinv := regInv_run hops regInv_initial
  refine ⟨hinv, ?_, ?_, ?_⟩
  · intro L c hc
    simp only [stepOp, setLogRules] at hc
    rcases List.mem_map.mp hc with ⟨c0, _, rfl⟩
    rw [applyRule_level, effectiveLevel_wildcard]
  · intro c hc
    simp only [stepOp, setLogRules] at hc
    rcases List.mem_map.mp hc with ⟨c0, _, rfl⟩
    rw [applyRule_level, applyRule_defaultLevel, effectiveLevel_nil]
  · intro i nm d hrules c hc
    have h := @regInv_stepOp (.register i nm d) rfl _ hinv c hc
    have hr : (stepOp (.register i nm d) (run ops initialState)).registry.rules =
        (run ops initialState).registry.rules :=
      registerCategory_rules i nm d (run ops initialState).registry
    rw [hr, hrules, effectiveLevel_wildcard] at h
    exact h

/-- Witness for C1 at the one-operation sequence that registers a single
category while no rules are stored. -/
theorem c1_registry_level_invariant_witness :
    (⟨0, "a", LogLevel.Info, LogLevel.Info⟩ : LogCat).level =
      effectiveLevel (run [Op.register 0 "a" LogLevel.Info] initialState).registry.rules
        (⟨0, "a", LogLevel.Info, LogLevel.Info⟩ : LogCat).name
        (⟨0, "a", LogLevel.Info, LogLevel.Info⟩ : LogCat).defaultLevel :=
  (c1_registry_level_invariant [Op.register 0 "a" LogLevel.Info] (by decide)).1
    ⟨0, "a", LogLevel.Info, LogLevel.Info⟩ (by decide)

/-- C5: parser example with silent discard.  `LastLogLevel` is below
`99`; parsing `"notimedate,*=2,bad=token,catX=99"` clears the
show-timestamp flag and installs exactly the one-element rule list
`[("*", Error)]` (level ordinal 2); the token `"bad=token"` (level not
an integer) and the token `"catX=99"` (level fails `validateLogLevel`)
are silently discarded, with no error reported. -/
theorem c5_setLogRule_parser_example :
    LogLevel.LastLogLevel.toInt < 99 ∧
      parseLogRule "notimedate,*=2,bad=token,catX=99" = ([("*", LogLevel.Error)], true) ∧
      ∀ s : GlobalState,
        (stepOp (.setRule "notimedate,*=2,bad=token,catX=99") s).showTimeDate = false ∧
          (stepOp (.setRule "notimedate,*=2,bad=token,catX=99") s).registry.rules =
              [("*", LogLevel.Error)] ∧
          (stepOp (.setRule "notimedate,*=2,bad=token,catX=99") s).registry.categories =
              s.registry.categories.map (applyRule [("*", LogLevel.Error)]) := by
  have hp : parseLogRule "notimedate,*=2,bad=token,catX=99" =
      ([("*", LogLevel.Error)], true) := by decide
  refine ⟨by decide, hp, ?_⟩
  intro s
  simp [stepOp, hp, setLogRules]

/-- C7: fatal admission.  `fatalWrapper l` aborts (modelled by `none`)
exactly when `l` is `Fatal` and `checkLogLevel Fatal` is false, and
otherwise returns exactly `checkLogLevel l`; the companion
`fatalWrapper2` — which takes no category and so performs no level
check — aborts whenever `l` is `Fatal` and returns `false` otherwise. -/
theorem c7_fatal_admission :
    (∀ (c : LogCat) (l : LogLevel),
        l = LogLevel.Fatal → c.checkLogLevel LogLevel.Fatal = false →
          c.fatalWrapper l = none) ∧
      (∀ (c : LogCat) (l : LogLevel),
        ¬(l = LogLevel.Fatal ∧ c.checkLogLevel l = false) →
          c.fatalWrapper l = some (c.checkLogLevel l)) ∧
      (∀ l : LogLevel, fatalWrapper2 l = none ↔ l = LogLevel.Fatal) ∧
      ∀ l : LogLevel, l ≠ LogLevel.Fatal → fatalWrapper2 l = some false := by
  refine ⟨?_, ?_, ?_, ?_⟩
  · intro c l hl hcheck
    subst hl
    simp [LogCat.fatalWrapper, hcheck]
  · intro c l h
    simp only [LogCat.fatalWrapper]
    rw [if_neg h]
  · intro l
    rw [fatalWrapper2]
    constructor
    · intro h
      by_contra hne
      rw [if_neg hne] at h
      exact Option.noConfusion h
    · intro h
      rw [if_pos h]
  · intro l h
    rw [fatalWrapper2, if_neg h]

/-- Witness for C7: a category at `NoLog` aborts on a `Fatal` request, a
category at `Debug` returns its admission result for `Info`, and
`fatalWrapper2` returns `false` for `Error`. -/
theorem c7_fatal_admission_witness :
    (⟨0, "x", LogLevel.NoLog, LogLevel.NoLog⟩ : LogCat).fatalWrapper LogLevel.Fatal =
        none ∧
      (⟨0, "x", LogLevel.Debug, LogLevel.Debug⟩ : LogCat).fatalWrapper LogLevel.Info =
        some ((⟨0, "x", LogLevel.Debug, LogLevel.Debug⟩ : LogCat).checkLogLevel
          LogLevel.Info) ∧
      fatalWrapper2 LogLevel.Error = some false :=
  ⟨c7_fatal_admission.1 _ _ rfl (by decide),
    c7_fatal_admission.2.1 _ _ (by decide),
    c7_fatal_admission.2.2.2 _ (by decide)⟩

/-- C9: message framing.  Constructing a builder writes, in order, the
one-character severity tag (`F`/`D`/`I`/`W`/`E`, nothing for any other
level); then, when the show-timestamp flag is on, the formatted
timestamp followed by a single space — with a formatting failure
swallowed, writing no timestamp and propagating no error — and then
`file:line] `.  Destroying the builder writes exactly one newline and
then flushes the stream. -/
theorem c9_message_framing :
    (severityTag LogLevel.Fatal = "F" ∧ severityTag LogLevel.Debug = "D" ∧
        severityTag LogLevel.Info = "I" ∧ severityTag LogLevel.Warn = "W" ∧
        severityTag LogLevel.Error = "E") ∧
      (∀ l : LogLevel, l ≠ LogLevel.Fatal → l ≠ LogLevel.Debug → l ≠ LogLevel.Info →
        l ≠ LogLevel.Warn → l ≠ LogLevel.Error → severityTag l = "") ∧
      (∀ (l : LogLevel) (ts f : String) (n : Int),
        builderPrefix l true (some ts) f n =
          severityTag l ++ (ts ++ " ") ++ f ++ ":" ++ toString n ++ "] ") ∧
      (∀ (l : LogLevel) (f : String) (n : Int),
        builderPrefix l true none f n = severityTag l ++ f ++ ":" ++ toString n ++ "] ") ∧
      (∀ (l : LogLevel) (ts : Option String) (f : String) (n : Int),
        builderPrefix l false ts f n = severityTag l ++ f ++ ":" ++ toString n ++ "] ") ∧
      builderTail.written = "\n" ∧ builderTail.flushed = true := by
  refine ⟨⟨rfl, rfl, rfl, rfl, rfl⟩, ?_, ?_, ?_, ?_, rfl, rfl⟩
  · intro l h1 h2 h3 h4 h5
    cases l with
    | NoLog => rfl
    | Fatal => exact absurd rfl h1
    | Debug => exact absurd rfl h2
    | Info => exact absurd rfl h3
    | Warn => exact absurd rfl h4
    | Error => exact absurd rfl h5
  · intro l ts f n
    rfl
  · intro l f n
    simp [builderPrefix, String.append_empty]
  · intro l ts f n
    simp [builderPrefix, String.append_empty]

/-- Witness for C9: the `NoLog` level carries no tag and a failed
timestamp leaves the frame as `file:line] `. -/
theorem c9_message_framing_witness :
    severityTag LogLevel.NoLog = "" ∧
      builderPrefix LogLevel.Info true none "a.cpp" 7 =
        severityTag LogLevel.Info ++ "a.cpp" ++ ":" ++ toString (7 : Int) ++ "] " :=
  ⟨c9_message_framing.2.1 LogLevel.NoLog (by decide) (by decide) (by decide) (by decide)
      (by decide),
    c9_message_framing.2.2.2.1 LogLevel.Info "a.cpp" 7⟩

/-- Witness for C4: the out-of-range level `99` leaves a concrete
category unchanged, and the in-range level `2` installs the level with
ordinal `2`. -/
theorem c4_validate_and_int_setLogLevel_witness :
    ((⟨0, "x", LogLevel.Info, LogLevel.Info⟩ : LogCat).setLogLevelInt 99 =
        ⟨0, "x", LogLevel.Info, LogLevel.Info⟩) ∧
      ((⟨0, "x", LogLevel.Info, LogLevel.Info⟩ : LogCat).setLogLevelInt 2).level =
          LogLevel.ofInt 2 :=
  ⟨c4_validate_and_int_setLogLevel.2.1 99 _ (by decide),
    (c4_validate_and_int_setLogLevel.2.2 2 _ (by decide) (by decide)).1⟩

theorem splitFirst_none {sep : Char} {cs : List Char} (h : sep ∉ cs) :
    splitFirst sep cs = none := by
  induction cs with
  | nil => rfl
  | cons c cs ih =>
    have hc : ¬ c = sep := fun hc => h (List.mem_cons.mpr (Or.inl hc.symm))
    simp only [splitFirst, if_neg hc]
    rw [ih fun hm => h (List.mem_cons_of_mem c hm)]

theorem splitFirst_append {sep : Char} (pre post : List Char) (h : sep ∉ pre) :
    splitFirst sep (pre ++ sep :: post) = some (pre, post) := by
  induction pre with
  | nil =>
    show splitFirst sep (sep :: post) = some ([], post)
    simp [splitFirst]
  | cons c cs ih =>
    have hc : ¬ c = sep := fun hc => h (List.mem_cons.mpr (Or.inl hc.symm))
    show splitFirst sep (c :: (cs ++ sep :: post)) = some (c :: cs, post)
    simp only [splitFirst, if_neg hc]
    rw [ih fun hm => h (List.mem_cons_of_mem c hm)]

/-- C6: token splitting.  For every comma-separated rule token other
than the exact token `"notimedate"`, `setLogRule` splits the token on
the first `=` only: a token with no `=` at all is silently discarded,
and a token of shape `pre ++ "=" ++ post` with no `=` in `pre` gets
pattern `pre` while the entire remainder `post` is the level text that
must parse as an integer and validate — so tokens with more than one
`=`, such as `"a==2"` or `"a=1=2"`, follow this first-`=`-split rule. -/
theorem c6_token_first_eq_split :
    (∀ tok : String, tok ≠ "notimedate" → '=' ∉ tok.toList → tokenToRule tok = none) ∧
      ∀ (pre post : List Char), '=' ∉ pre →
        tokenToRule (String.mk (pre ++ '=' :: post)) =
          match fromChars post with
          | none => none
          | some lvl =>
            if validateLogLevel lvl then some (String.mk pre, LogLevel.ofInt lvl)
            else none := by
  constructor
  · intro tok _ h
    simp only [tokenToRule]
    rw [splitFirst_none h]
  · intro pre post h
    simp only [tokenToRule]
    rw [show (String.mk (pre ++ '=' :: post)).toList = pre ++ '=' :: post from rfl]
    rw [splitFirst_append pre post h]

/-- Witness for C6: the token `"abc"` (no `=`) is discarded, and the
token `"a=1=2"` splits into pattern `"a"` and level text `"1=2"`. -/
theorem c6_token_first_eq_split_witness :
    tokenToRule "abc" = none ∧
      tokenToRule (String.mk (['a'] ++ '=' :: ['1', '=', '2'])) =
        match fromChars ['1', '=', '2'] with
        | none => none
        | some lvl =>
          if validateLogLevel lvl then some (String.mk ['a'], LogLevel.ofInt lvl)
          else none :=
  ⟨c6_token_first_eq_split.1 "abc" (by decide) (by decide),
    c6_token_first_eq_split.2 ['a'] ['1', '=', '2'] (by decide)⟩

/-- C8 counterexample: the claim as stated fails on the code.  In the
scenario — category `"net"` constructed at `Warn`, then
`setLogRule "net=1"` — the level with ordinal `1` is `Fatal`, not
`Error` (whose ordinal is `2`), so afterwards `checkLogLevel net Error`
returns `false`, not `true` as claimed. -/
theorem c8_counterexample_net_rule :
    (run [Op.register 0 "net" LogLevel.Warn, Op.setRule "net=1"]
          initialState).registry.categories =
        [⟨0, "net", LogLevel.Fatal, LogLevel.Warn⟩] ∧
      LogLevel.Fatal.toInt = 1 ∧ LogLevel.Error.toInt = 2 ∧
      (⟨0, "net", LogLevel.Fatal, LogLevel.Warn⟩ : LogCat).checkLogLevel LogLevel.Error =
        false := by
  decide

/-- C8 amended: construct category `"net"` at `Warn` and call
`setLogRule "net=2"`, where `2` is `Error`'s ordinal; afterwards
`checkLogLevel net Error` returns `true` and `checkLogLevel net Warn`
returns `false`. -/
theorem c8_scenario_amended :
    (run [Op.register 0 "net" LogLevel.Warn, Op.setRule "net=2"]
          initialState).registry.categories =
        [⟨0, "net", LogLevel.Error, LogLevel.Warn⟩] ∧
      LogLevel.Error.toInt = 2 ∧
      (⟨0, "net", LogLevel.Error, LogLevel.Warn⟩ : LogCat).checkLogLevel LogLevel.Error =
          true ∧
      (⟨0, "net", LogLevel.Error, LogLevel.Warn⟩ : LogCat).checkLogLevel LogLevel.Warn =
          false := by
  decide

theorem parse_foldl_saw (toks : List String) (acc : List LogRule × Bool) :
    (toks.foldl setLogRuleStep acc).2 =
      (acc.2 || toks.any fun t => t == "notimedate") := by
  induction toks generalizing acc with
  | nil => simp
  | cons t ts ih =>
    simp only [List.foldl_cons, List.any_cons]
    by_cases h : t = "notimedate"
    · rw [setLogRuleStep, if_pos h, ih]
      simp [h]
    · rw [setLogRuleStep, if_neg h]
      have hbeq : (t == "notimedate") = false := by
        exact beq_eq_false_iff_ne.mpr h
      cases htr : tokenToRule t with
      | none => rw [ih, hbeq, Bool.false_or]
      | some r => rw [ih, hbeq, Bool.false_or]

theorem parseLogRule_saw (s : String) :
    (parseLogRule s).2 = (splitTokens ',' s).any fun t => t == "notimedate" := by
  rw [parseLogRule, parse_foldl_saw]
  rfl

theorem stepOp_showTimeDate_mono (op : Op) (s : GlobalState) :
    (stepOp op s).showTimeDate = true → s.showTimeDate = true := by
  cases op with
  | setRule str =>
    rcases hps : parseLogRule str with ⟨rules, saw⟩
    intro h
    simp only [stepOp, hps] at h
    cases saw with
    | true =>
      rw [if_pos rfl] at h
      exact absurd h (by decide)
    | false =>
      rw [if_neg (by decide)] at h
      exact h
  | register i nm d => exact fun h => h
  | unregister i => exact fun h => h
  | setRules rules => exact fun h => h
  | setLevel i l => exact fun h => h
  | setLevelInt i n => exact fun h => h
  | resetLevel i => exact fun h => h

/-- C10: the process-wide show-timestamp flag is monotone-decreasing.
It starts `true`; a `setLogRule` whose rule string contains the token
`"notimedate"` sets it to `false`; no operation of this core ever sets
it back to `true`, so once `false` it stays `false` under every further
operation sequence — including any later `setLogRule` without
`"notimedate"`, such as `setLogRule ""`. -/
theorem c10_showTimeDate_monotone :
    initialState.showTimeDate = true ∧
      (∀ (op : Op) (s : GlobalState),
        (stepOp op s).showTimeDate = true → s.showTimeDate = true) ∧
      (∀ (s : GlobalState) (str : String), "notimedate" ∈ splitTokens ',' str →
        (stepOp (.setRule str) s).showTimeDate = false) ∧
      ∀ (s : GlobalState) (ops : List Op), s.showTimeDate = false →
        (run ops s).showTimeDate = false := by
  refine ⟨rfl, stepOp_showTimeDate_mono, ?_, ?_⟩
  · intro s str hmem
    rcases hps : parseLogRule str with ⟨rules, saw⟩
    have hsaw : saw = ((splitTokens ',' str).any fun t => t == "notimedate") := by
      have h := parseLogRule_saw str
      rw [hps] at h
      exact h
    have hsaw2 : saw = true := by
      rw [hsaw]
      exact List.any_eq_true.mpr ⟨"notimedate", hmem, by decide⟩
    subst hsaw2
    simp [stepOp, hps]
  · intro s ops h
    induction ops generalizing s with
    | nil => exact h
    | cons op rest ih =>
      apply ih
      cases hval : (stepOp op s).showTimeDate with
      | false => rfl
      | true =>
        rw [stepOp_showTimeDate_mono op s hval] at h
        exact absurd h (by decide)

/-- Witness for C10: `setLogRule "notimedate"` turns the flag off at the
initial state, and it stays off over a later `setLogRule ""`. -/
theorem c10_showTimeDate_monotone_witness :
    (stepOp (.setRule "notimedate") initialState).showTimeDate = false ∧
      (run [Op.setRule ""]
          (stepOp (.setRule "notimedate") initialState)).showTimeDate = false := by
  refine ⟨c10_showTimeDate_monotone.2.2.1 initialState "notimedate" (by decide), ?_⟩
  exact c10_showTimeDate_monotone.2.2.2 _ [Op.setRule ""]
    (c10_showTimeDate_monotone.2.2.1 initialState "notimedate" (by decide))

end Fcitx
